import Mathlib

/-!
Verification of the PropNinja analytics engine (src/bot.py) against its
natural-language specification.

The Python source is shallowly embedded: pure numeric code becomes Lean
functions over `ℚ` (or `ℝ` where the source uses `math.sqrt` / `math.erf`),
Python dictionaries become association lists, fallible operations
(`/` by zero, list indexing, `math.sqrt` of a negative) return
`Except PyErr`.  Python float arithmetic is modelled as exact arithmetic.
-/

set_option maxHeartbeats 1000000

namespace PropNinja

/-- The Python runtime errors the embedded code paths can raise, plus the
`InvalidConfiguration` error named by the specification (which the source
never raises anywhere). -/
inductive PyErr : Type
  | zeroDivision
  | indexError
  | valueError
  | invalidConfiguration
  deriving DecidableEq

/-- Python `x / y`: raises `ZeroDivisionError` when the denominator is zero. -/
noncomputable def pyDiv (x y : ℝ) : Except PyErr ℝ :=
  if y = 0 then .error .zeroDivision else .ok (x / y)

/-- Python `math.sqrt`: raises `ValueError` on a negative argument. -/
noncomputable def pySqrt (x : ℝ) : Except PyErr ℝ :=
  if x < 0 then .error .valueError else .ok (Real.sqrt x)

/-- Python list indexing `l[i]`, including negative-index semantics:
valid for `-len ≤ i < len`, otherwise `IndexError`. -/
def pyGet {α : Type} (l : List α) (i : ℤ) : Except PyErr α :=
  let j : ℤ := if i < 0 then i + l.length else i
  if h : 0 ≤ j ∧ j < (l.length : ℤ) then
    .ok (l.get ⟨j.toNat, by omega⟩)
  else
    .error .indexError

/-- Python `int(x)` on a float: truncation toward zero. -/
noncomputable def pyInt (x : ℝ) : ℤ :=
  if 0 ≤ x then ⌊x⌋ else ⌈x⌉

/-- Python `dict.get(k, default)` over an association-list model of a dict. -/
def dictGet {α : Type} (d : List (String × α)) (k : String) (dflt : α) : α :=
  match d.find? (fun p => p.1 == k) with
  | some p => p.2
  | none => dflt

/-- Round-half-even to an integer (the rounding Python `round` applies to the
scaled value, modelled over exact arithmetic). -/
noncomputable def rhe (x : ℝ) : ℤ :=
  if x - ⌊x⌋ < 1 / 2 then ⌊x⌋
  else if 1 / 2 < x - ⌊x⌋ then ⌊x⌋ + 1
  else if Even ⌊x⌋ then ⌊x⌋ else ⌊x⌋ + 1

/-- Python `round(x, k)` modelled over exact arithmetic. -/
noncomputable def roundPy (k : ℕ) (x : ℝ) : ℝ :=
  (rhe (x * 10 ^ k) : ℝ) / 10 ^ k

/-- `DECIMAL_ODDS = 1.90` (src/bot.py line 15). -/
def DECIMAL_ODDS : ℝ := 1.90

/-- `NUM_SIMULATIONS = 10000` (src/bot.py line 17). -/
def NUM_SIMULATIONS : ℤ := 10000

/-- The win counter of `monte_carlo` (src/bot.py line 165):
`wins_a = sum(1 for a, b in zip(scores_a, scores_b) if a > b)`. -/
def winsA {α : Type} [LinearOrder α] (ps : List (α × α)) : ℕ :=
  ps.countP (fun p => decide (p.2 < p.1))

/-- One pass of the weighted accumulation loops of `compute_baseline`
(src/bot.py lines 130-135): `raw += weights.get(k, 0) * v` over the items. -/
def weightFold (weights : List (String × ℚ)) (m : List (String × ℚ)) (acc : ℚ) : ℚ :=
  m.foldl (fun a p => a + dictGet weights p.1 0 * p.2) acc

/-- `compute_baseline` (src/bot.py lines 128-139). -/
def compute_baseline (metrics situational injury historical : List (String × ℚ))
    (weights : List (String × ℚ)) (scale : ℚ) : ℚ :=
  let raw0 := weightFold weights metrics 0
  let raw1 := weightFold weights situational raw0
  let raw2 := weightFold weights injury raw1
  let raw := raw2 + dictGet weights "historical" 0 * dictGet historical "adjusted_point_diff" 0
  let baseline := scale * (1 + raw * 0.12)
  max baseline (scale * 0.5)

/-- `grade` (src/bot.py lines 366-371). -/
def grade (edge : ℚ) : String :=
  if edge ≥ 0.14 then "A+"
  else if edge ≥ 0.11 then "A"
  else if edge ≥ 0.08 then "B"
  else if edge ≥ 0.05 then "C"
  else "D"

/-- The natural order on the letter grades (A+ highest), used to state
monotonicity of the edge-to-grade mapping. -/
def gradeRank (g : String) : ℕ :=
  if g = "A+" then 4
  else if g = "A" then 3
  else if g = "B" then 2
  else if g = "C" then 1
  else 0

/-- The side-selection block of `run_matchup_analysis` (src/bot.py lines
249-257): `if ev_a > 0 and ev_a >= ev_b: ... elif ev_b > 0: ... else: ...`. -/
def select_ev_bet (team_a team_b : String) (ev_a ev_b kelly_a kelly_b : ℚ) : String × ℚ :=
  if ev_a > 0 ∧ ev_a ≥ ev_b then (team_a, kelly_a)
  else if ev_b > 0 then (team_b, kelly_b)
  else ("No +EV", 0)

/-- The American-to-decimal odds conversion inlined in `fetch_espn_matchups`
(src/bot.py lines 544-551), under the name the specification gives it:
`if odds < 0: odds = 1 + (100 / abs(odds)) else: odds = 1 + (odds / 100)`. -/
def american_to_decimal (odds : ℚ) : ℚ :=
  if odds < 0 then 1 + 100 / |odds| else 1 + odds / 100

/-- The tie-splitting win probability the specification mandates (claim C1):
strict wins plus half the ties, over the trial count.  This definition
follows the spec wording, for comparison against the source's tally. -/
def win_prob_a_spec_tie_split (ps : List (ℚ × ℚ)) : ℚ :=
  ((ps.countP (fun p => decide (p.2 < p.1)) : ℚ)
      + (ps.countP (fun p => decide (p.1 = p.2)) : ℚ) / 2) / ps.length

/-- `SPORT_STD` (src/bot.py lines 88-95). -/
noncomputable def SPORT_STD : List (String × ℝ) :=
  [("NBA", 11.0), ("NFL", 9.5), ("NHL", 1.4), ("MLB", 2.8), ("EPL", 1.2), ("DEFAULT", 8.0)]

/-- `gauss_pair` (src/bot.py lines 141-152).  The stream `u` supplies the
`random.random()` values, drawn alternately for `z1` and `z2` inside the
twelve-iteration loop; `math.sqrt` raises `ValueError` when
`1 - corr ** 2 < 0`. -/
noncomputable def gauss_pair (mu_a mu_b sigma corr : ℝ) (u : ℕ → ℝ) :
    Except PyErr (ℝ × ℝ) := do
  let z1 := (Finset.range 12).sum (fun k => u (2 * k)) - 6
  let z2 := (Finset.range 12).sum (fun k => u (2 * k + 1)) - 6
  let s ← pySqrt (1 - corr ^ 2)
  let z2_corr := corr * z1 + s * z2
  pure (mu_a + sigma * z1, mu_b + sigma * z2_corr)

/-- The sampling loop of `monte_carlo` (src/bot.py lines 160-163): trial `t`
consumes the 24 uniform draws `u (24 * t) .. u (24 * t + 23)`, and the pairs
are appended in trial order.  The call passes the default correlation
`corr = 0.15` exactly as the source call site does. -/
noncomputable def sampleScores (mu_a mu_b sigma : ℝ) (u : ℕ → ℝ) :
    ℕ → Except PyErr (List (ℝ × ℝ))
  | 0 => .ok []
  | t + 1 => do
    let rest ← sampleScores mu_a mu_b sigma u t
    let p ← gauss_pair mu_a mu_b sigma 0.15 (fun k => u (24 * t + k))
    pure (rest ++ [p])

/-- The distribution-sample loop of `monte_carlo` (src/bot.py lines
188-189): index both score lists at each sample index and round to one
decimal. -/
noncomputable def distSample (sa sb : List ℝ) : List ℤ → Except PyErr (List (ℝ × ℝ))
  | [] => .ok []
  | i :: is => do
    let a ← pyGet sa i
    let b ← pyGet sb i
    let rest ← distSample sa sb is
    pure ((roundPy 1 a, roundPy 1 b) :: rest)

/-- The result dictionary of `monte_carlo` (src/bot.py lines 191-206). -/
structure SimResult where
  TeamA_Score_Mean : ℝ
  TeamB_Score_Mean : ℝ
  TeamA_Score_Median : ℝ
  TeamB_Score_Median : ℝ
  TeamA_WinProb : ℝ
  TeamB_WinProb : ℝ
  Projected_Spread : ℝ
  Spread_StdDev : ℝ
  CI_TeamA : ℝ × ℝ
  CI_TeamB : ℝ × ℝ
  Simulation_Distribution : List (ℝ × ℝ)
  Simulations : ℤ

/-- `monte_carlo` (src/bot.py lines 154-206), with the trial count `n` and
the uniform random stream `u` explicit, in the source's evaluation order. -/
noncomputable def monte_carlo (baseline_a baseline_b : ℝ) (sport : String) (n : ℤ)
    (u : ℕ → ℝ) : Except PyErr SimResult := do
  let sigma := dictGet SPORT_STD sport (dictGet SPORT_STD "DEFAULT" 0)
  let scores ← sampleScores baseline_a baseline_b sigma u n.toNat
  let scores_a := scores.map Prod.fst
  let scores_b := scores.map Prod.snd
  let wins_a := winsA scores
  let win_prob_a ← pyDiv (wins_a : ℝ) (n : ℝ)
  let win_prob_b := 1 - win_prob_a
  let proj_a ← pyDiv scores_a.sum (n : ℝ)
  let proj_b ← pyDiv scores_b.sum (n : ℝ)
  let diffs := scores.map (fun p => p.1 - p.2)
  let proj_spread ← pyDiv diffs.sum (n : ℝ)
  let variance ← pyDiv ((diffs.map (fun d => (d - proj_spread) ^ 2)).sum) (n : ℝ)
  let spread_std ← pySqrt variance
  let sorted_a := scores_a.insertionSort (· ≤ ·)
  let sorted_b := scores_b.insertionSort (· ≤ ·)
  let ciA0 ← pyGet sorted_a (pyInt (0.05 * (n : ℝ)))
  let ciA1 ← pyGet sorted_a (pyInt (0.95 * (n : ℝ)))
  let ciB0 ← pyGet sorted_b (pyInt (0.05 * (n : ℝ)))
  let ciB1 ← pyGet sorted_b (pyInt (0.95 * (n : ℝ)))
  let mid := Int.fdiv n 2
  let med_a ← pyGet sorted_a mid
  let med_b ← pyGet sorted_b mid
  let sample_idx := (List.range 20).map (fun i : ℕ => pyInt ((i : ℝ) * (n : ℝ) / 20))
  let dist ← distSample scores_a scores_b sample_idx
  pure {
    TeamA_Score_Mean := roundPy 2 proj_a
    TeamB_Score_Mean := roundPy 2 proj_b
    TeamA_Score_Median := roundPy 2 med_a
    TeamB_Score_Median := roundPy 2 med_b
    TeamA_WinProb := roundPy 4 win_prob_a
    TeamB_WinProb := roundPy 4 win_prob_b
    Projected_Spread := roundPy 2 proj_spread
    Spread_StdDev := roundPy 2 spread_std
    CI_TeamA := (roundPy 1 ciA0, roundPy 1 ciA1)
    CI_TeamB := (roundPy 1 ciB0, roundPy 1 ciB1)
    Simulation_Distribution := dist
    Simulations := n }

/-- `math.erf`, modelled by its standard integral definition. -/
noncomputable def erf (x : ℝ) : ℝ :=
  2 / Real.sqrt Real.pi * ∫ t in (0 : ℝ)..x, Real.exp (-t ^ 2)

/-- `normal_cdf` (src/bot.py lines 335-336). -/
noncomputable def normal_cdf (z : ℝ) : ℝ :=
  0.5 * (1 + erf (z / Real.sqrt 2))

/-- All suffixes of a list, longest first (helper for the substring test). -/
def suffixes {α : Type} : List α → List (List α)
  | [] => [[]]
  | a :: as => (a :: as) :: suffixes as

/-- Python `str.lower()`, modelled characterwise. -/
def pyLower (s : String) : String := ⟨s.data.map Char.toLower⟩

/-- Python `needle in hay` on strings: substring containment. -/
def strIn (needle hay : String) : Bool :=
  (suffixes hay.toList).any (fun t => needle.toList.isPrefixOf t)

/-- The stat-keyword boost table of `propninja_score` (src/bot.py lines
339-352), applied to the lowercased stat string; every branch, including the
default, returns a positive boost. -/
noncomputable def boostOf (stat : String) : ℝ :=
  let s := pyLower stat
  if strIn "assist" s then 0.072
  else if strIn "point" s then 0.065
  else if strIn "rebound" s then 0.048
  else if strIn "goal" s then 0.071
  else if strIn "shot" s then 0.063
  else if strIn "strikeout" s then 0.079
  else if strIn "hit" s then 0.055
  else if strIn "yard" s then 0.061
  else if strIn "touchdown" s then 0.058
  else if strIn "base" s then 0.053
  else if strIn "block" s then 0.044
  else if strIn "steal" s then 0.066
  else 0.055

/-- The composite projection of `propninja_score` (src/bot.py lines
355-358): a 40/40/20 blend of season, recent and matchup projections. -/
noncomputable def compositeOf (line : ℝ) (stat : String) : ℝ :=
  let boost := boostOf stat
  let season_proj := line * (1 + boost)
  let recent_proj := line * (1 + boost * 1.15)
  let matchup_proj := line * (1 + boost * 0.90)
  season_proj * 0.40 + recent_proj * 0.40 + matchup_proj * 0.20

/-- `propninja_score` (src/bot.py lines 338-363).  The z-score division is
by `line * 0.185`, which raises `ZeroDivisionError` at `line = 0`. -/
noncomputable def propninja_score (line : ℝ) (stat : String) :
    Except PyErr (ℝ × ℝ × ℝ) := do
  let composite := compositeOf line stat
  let std_dev := line * 0.185
  let z ← pyDiv (composite - line) std_dev
  let prob := normal_cdf z
  let edge := prob - 1 / DECIMAL_ODDS
  pure (roundPy 2 composite, roundPy 4 prob, roundPy 4 edge)

/-- The stat-only probability `propninja_score` computes for any positive
line (the line cancels in the z-score); used to state that the returned
probability depends only on the stat keyword, not on the line value. -/
noncomputable def probOfStat (stat : String) : ℝ :=
  normal_cdf (1.04 * boostOf stat / 0.185)

/-- `decimal_to_american` (src/requirements.txt lines 106-110): Python
`round` to an integer is round-half-even; the negative branch divides by
`dec - 1`, raising `ZeroDivisionError` at decimal odds exactly 1. -/
noncomputable def decimal_to_american (dec : ℝ) : Except PyErr String :=
  if dec ≥ 2.0 then .ok ("+" ++ toString (rhe ((dec - 1) * 100)))
  else do
    let v ← pyDiv (-100) (dec - 1)
    pure (toString (rhe v))

/-- The pick dictionary produced by `run_quant_engine`
(src/requirements.txt lines 170-193), restricted to the keys the parlay
engine reads.  `run_quant_engine` always populates every one of these keys,
so the `dict.get` defaults in the parlay engine never fire. -/
structure Pick where
  sport : String
  win_prob : ℝ
  ev_dec : ℝ
  risk : String
  has_edge : Bool
  edge : ℝ
  ev_bet : String

/-- The non-empty parlay dictionary returned by `calculate_parlay`
(src/requirements.txt lines 245-257). -/
structure ParlaySlip where
  legs : List Pick
  num_legs : ℕ
  combined_prob : ℝ
  parlay_odds : ℝ
  parlay_american : String
  ev : ℝ
  kelly_pct : ℝ
  grade : String
  kill_legs : ℕ
  warnings : List String
  has_ev : Bool

/-- `calculate_parlay` (src/requirements.txt lines 202-257).  An empty leg
list returns the empty dict (modelled as `none`) before anything else runs;
otherwise each leg whose sport occurs more than once in the slip takes the
0.97 same-sport correlation haircut, the combined probability and decimal
odds are the products over the legs in order, and the quarter-Kelly
division by `parlay_dec - 1` raises `ZeroDivisionError` when the combined
decimal odds are exactly 1. -/
noncomputable def calculate_parlay (legs : List Pick) : Except PyErr (Option ParlaySlip) :=
  if legs.isEmpty then .ok none
  else do
    let combined_prob := (legs.map (fun l =>
      if 1 < legs.countP (fun x => x.sport == l.sport) then l.win_prob / 100 * 0.97
      else l.win_prob / 100)).prod
    let parlay_dec := (legs.map (fun l => l.ev_dec)).prod
    let ev := combined_prob * (parlay_dec - 1) - (1 - combined_prob)
    let kelly_raw ← pyDiv (combined_prob * (parlay_dec - 1) - (1 - combined_prob))
      (parlay_dec - 1)
    let kelly := max (kelly_raw * 0.25) 0
    let high_risk_legs := legs.filter (fun l => l.risk == "HIGH")
    let kill_leg_count := high_risk_legs.length
    let parlay_grade :=
      if kill_leg_count = 0 ∧ 0 < ev then "A"
      else if kill_leg_count ≤ 1 ∧ 0 < ev then "B"
      else if kill_leg_count ≤ 2 then "C"
      else "D"
    let warnings :=
      (if 0 < kill_leg_count then
        ["HIGH risk legs detected: "
          ++ String.intercalate ", " (high_risk_legs.map (fun l => l.ev_bet))
          ++ ". These are historical parlay killers."]
      else [])
      ++ (if 6 < legs.length then
        ["Parlays with 7+ legs have < 2% hit rate on average. Consider trimming."]
      else [])
      ++ (if combined_prob < 0.05 then
        ["Combined probability below 5%. Extremely unlikely to hit."]
      else [])
    let pam ← decimal_to_american parlay_dec
    pure (some {
      legs := legs
      num_legs := legs.length
      combined_prob := roundPy 2 (combined_prob * 100)
      parlay_odds := roundPy 2 parlay_dec
      parlay_american := pam
      ev := roundPy 2 (ev * 100)
      kelly_pct := roundPy 2 (kelly * 100)
      grade := parlay_grade
      kill_legs := kill_leg_count
      warnings := warnings
      has_ev := decide (0 < ev) })

/-- `build_optimal_parlay` (src/requirements.txt lines 260-266): filter to
picks with an edge and non-HIGH risk, stable-sort descending by
`edge + win_prob * 0.5` (Python `sort` with `reverse=True` is stable),
take the top `max_legs`; if none survive, fall back to the full pool
sorted descending by `win_prob`; then hand the legs to `calculate_parlay`
(so an empty pool yields the empty dict). -/
noncomputable def build_optimal_parlay (all_picks : List Pick) (max_legs : ℕ) :
    Except PyErr (Option ParlaySlip) :=
  let ev_picks := all_picks.filter (fun p => p.has_edge && (p.risk != "HIGH"))
  let ranked := ev_picks.insertionSort
    (fun a b => b.edge + b.win_prob * 0.5 ≤ a.edge + a.win_prob * 0.5)
  let legs := ranked.take max_legs
  let legs2 :=
    if legs.isEmpty then
      (all_picks.insertionSort (fun a b => b.win_prob ≤ a.win_prob)).take max_legs
    else legs
  calculate_parlay legs2

lemma dictGet_of_find_none {α : Type} {d : List (String × α)} {k : String} {dflt : α}
    (h : d.find? (fun p => p.1 == k) = none) : dictGet d k dflt = dflt := by
  simp [dictGet, h]

lemma weightFold_shift (w m : List (String × ℚ)) (acc : ℚ) :
    weightFold w m acc = acc + weightFold w m 0 := by
  induction m generalizing acc with
  | nil => simp [weightFold]
  | cons p ps ih =>
    simp only [weightFold, List.foldl_cons] at *
    rw [ih, ih (0 + dictGet w p.1 0 * p.2)]
    ring

lemma count_trichotomy {α : Type} [LinearOrder α] (ps : List (α × α)) :
    ps.countP (fun p => decide (p.2 < p.1)) + ps.countP (fun p => decide (p.1 < p.2))
      + ps.countP (fun p => decide (p.1 = p.2)) = ps.length := by
  induction ps with
  | nil => simp
  | cons p ps ih =>
    simp only [List.countP_cons, List.length_cons]
    rcases lt_trichotomy p.1 p.2 with h | h | h
    · have h1 : (decide (p.2 < p.1)) = false := by simp [lt_asymm h]
      have h2 : (decide (p.1 < p.2)) = true := by simp [h]
      have h3 : (decide (p.1 = p.2)) = false := by simp [ne_of_lt h]
      rw [h1, h2, h3]
      simp only [if_true, if_false, Bool.false_eq_true]
      omega
    · have h1 : (decide (p.2 < p.1)) = false := by simp [h]
      have h2 : (decide (p.1 < p.2)) = false := by simp [h]
      have h3 : (decide (p.1 = p.2)) = true := by simp [h]
      rw [h1, h2, h3]
      simp only [if_true, if_false, Bool.false_eq_true]
      omega
    · have h1 : (decide (p.2 < p.1)) = true := by simp [h]
      have h2 : (decide (p.1 < p.2)) = false := by simp [lt_asymm h]
      have h3 : (decide (p.1 = p.2)) = false := by simp [ne_of_gt h]
      rw [h1, h2, h3]
      simp only [if_true, if_false, Bool.false_eq_true]
      omega

lemma okBind {α β : Type} (x : α) (f : α → Except PyErr β) :
    (Except.ok x >>= f) = f x := rfl

lemma errBind {α β : Type} (e : PyErr) (f : α → Except PyErr β) :
    ((Except.error e : Except PyErr α) >>= f) = .error e := rfl

lemma pyDiv_ok {y : ℝ} (h : y ≠ 0) (x : ℝ) : pyDiv x y = .ok (x / y) := by
  simp [pyDiv, h]

lemma pyDiv_zero (x : ℝ) : pyDiv x 0 = .error .zeroDivision := by
  simp [pyDiv]

lemma pySqrt_ok {x : ℝ} (h : 0 ≤ x) : pySqrt x = .ok (Real.sqrt x) := by
  simp [pySqrt, not_lt.mpr h]

lemma pyGet_nil {α : Type} (i : ℤ) : pyGet ([] : List α) i = .error .indexError := by
  rcases lt_or_le i 0 with h | h <;> simp [pyGet, h] <;> omega

lemma pyGet_isOk {α : Type} (l : List α) (i : ℤ) (h0 : 0 ≤ i) (h1 : i < (l.length : ℤ)) :
    ∃ a, pyGet l i = .ok a := by
  have hcond : (0 ≤ (if i < 0 then i + (l.length : ℤ) else i))
      ∧ (if i < 0 then i + (l.length : ℤ) else i) < (l.length : ℤ) := by
    rw [if_neg (not_lt.mpr h0)]
    exact ⟨h0, h1⟩
  simp only [pyGet]
  rw [dif_pos hcond]
  exact ⟨_, rfl⟩

lemma gauss_pair_ok {corr : ℝ} (mu_a mu_b sigma : ℝ) (u : ℕ → ℝ) (h : 0 ≤ 1 - corr ^ 2) :
    gauss_pair mu_a mu_b sigma corr u
      = .ok (mu_a + sigma * ((Finset.range 12).sum (fun k => u (2 * k)) - 6),
          mu_b + sigma * (corr * ((Finset.range 12).sum (fun k => u (2 * k)) - 6)
            + Real.sqrt (1 - corr ^ 2)
              * ((Finset.range 12).sum (fun k => u (2 * k + 1)) - 6))) := by
  simp only [gauss_pair]
  rw [pySqrt_ok h, okBind]
  rfl

lemma sampleScores_ok (mu_a mu_b sigma : ℝ) (u : ℕ → ℝ) (t : ℕ) :
    ∃ l : List (ℝ × ℝ), sampleScores mu_a mu_b sigma u t = .ok l ∧ l.length = t := by
  induction t with
  | zero => exact ⟨[], rfl, rfl⟩
  | succ t ih =>
    obtain ⟨l, hl, hlen⟩ := ih
    simp only [sampleScores]
    rw [hl, okBind, gauss_pair_ok _ _ _ _ (by norm_num), okBind]
    exact ⟨_, rfl, by simp [hlen]⟩

lemma distSample_ok (sa sb : List ℝ) (idxs : List ℤ)
    (h : ∀ i ∈ idxs, 0 ≤ i ∧ i < (sa.length : ℤ) ∧ i < (sb.length : ℤ)) :
    ∃ l, distSample sa sb idxs = .ok l := by
  induction idxs with
  | nil => exact ⟨[], rfl⟩
  | cons i is ih =>
    obtain ⟨hi0, hia, hib⟩ := h i (List.mem_cons_self _ _)
    obtain ⟨a, ha⟩ := pyGet_isOk sa i hi0 hia
    obtain ⟨b, hb⟩ := pyGet_isOk sb i hi0 hib
    obtain ⟨l, hl⟩ := ih (fun j hj => h j (List.mem_cons_of_mem _ hj))
    refine ⟨(roundPy 1 a, roundPy 1 b) :: l, ?_⟩
    simp only [distSample]
    rw [ha, okBind, hb, okBind, hl, okBind]
    rfl

lemma pyInt_bounds {c : ℝ} (n : ℤ) (hn : 0 < n) (hc0 : 0 ≤ c) (hc1 : c < 1) :
    0 ≤ pyInt (c * (n : ℝ)) ∧ pyInt (c * (n : ℝ)) < n := by
  have hnR : (0 : ℝ) < (n : ℝ) := by exact_mod_cast hn
  have hx : 0 ≤ c * (n : ℝ) := mul_nonneg hc0 hnR.le
  rw [pyInt, if_pos hx]
  refine ⟨Int.floor_nonneg.mpr hx, ?_⟩
  rw [Int.floor_lt]
  nlinarith

lemma monte_carlo_ok (ba bb : ℝ) (sport : String) (n : ℤ) (u : ℕ → ℝ) (hn : 0 < n) :
    ∃ (r : SimResult) (p : ℝ), monte_carlo ba bb sport n u = .ok r ∧
      r.TeamA_WinProb = roundPy 4 p ∧ r.TeamB_WinProb = roundPy 4 (1 - p) := by
  have hnRpos : (0 : ℝ) < (n : ℝ) := by exact_mod_cast hn
  have hnR : ((n : ℝ)) ≠ 0 := ne_of_gt hnRpos
  obtain ⟨scores, hs, hslen⟩ :=
    sampleScores_ok ba bb (dictGet SPORT_STD sport (dictGet SPORT_STD "DEFAULT" 0)) u n.toNat
  have hlen_a : (((scores.map Prod.fst).insertionSort (· ≤ ·)).length : ℤ) = n := by
    rw [List.length_insertionSort, List.length_map, hslen]
    omega
  have hlen_b : (((scores.map Prod.snd).insertionSort (· ≤ ·)).length : ℤ) = n := by
    rw [List.length_insertionSort, List.length_map, hslen]
    omega
  have h05 := pyInt_bounds (c := 0.05) n hn (by norm_num) (by norm_num)
  have h95 := pyInt_bounds (c := 0.95) n hn (by norm_num) (by norm_num)
  have hmid : 0 ≤ Int.fdiv n 2 ∧ Int.fdiv n 2 < n := by
    rw [Int.fdiv_eq_ediv n (by norm_num)]
    omega
  obtain ⟨vA0, hA0⟩ := pyGet_isOk ((scores.map Prod.fst).insertionSort (· ≤ ·))
    (pyInt (0.05 * (n : ℝ))) h05.1 (by rw [hlen_a]; exact h05.2)
  obtain ⟨vA1, hA1⟩ := pyGet_isOk ((scores.map Prod.fst).insertionSort (· ≤ ·))
    (pyInt (0.95 * (n : ℝ))) h95.1 (by rw [hlen_a]; exact h95.2)
  obtain ⟨vB0, hB0⟩ := pyGet_isOk ((scores.map Prod.snd).insertionSort (· ≤ ·))
    (pyInt (0.05 * (n : ℝ))) h05.1 (by rw [hlen_b]; exact h05.2)
  obtain ⟨vB1, hB1⟩ := pyGet_isOk ((scores.map Prod.snd).insertionSort (· ≤ ·))
    (pyInt (0.95 * (n : ℝ))) h95.1 (by rw [hlen_b]; exact h95.2)
  obtain ⟨vMa, hMa⟩ := pyGet_isOk ((scores.map Prod.fst).insertionSort (· ≤ ·))
    (Int.fdiv n 2) hmid.1 (by rw [hlen_a]; exact hmid.2)
  obtain ⟨vMb, hMb⟩ := pyGet_isOk ((scores.map Prod.snd).insertionSort (· ≤ ·))
    (Int.fdiv n 2) hmid.1 (by rw [hlen_b]; exact hmid.2)
  obtain ⟨dist, hdist⟩ := distSample_ok (scores.map Prod.fst) (scores.map Prod.snd)
    ((List.range 20).map (fun i : ℕ => pyInt ((i : ℝ) * (n : ℝ) / 20)))
    (by
      intro i hi
      simp only [List.mem_map, List.mem_range] at hi
      obtain ⟨j, hj20, rfl⟩ := hi
      have harg : (j : ℝ) * (n : ℝ) / 20 = ((j : ℝ) / 20) * (n : ℝ) := by ring
      rw [harg]
      have hb := pyInt_bounds (c := (j : ℝ) / 20) n hn (by positivity)
        (by
          rw [div_lt_one (by norm_num)]
          exact_mod_cast hj20)
      refine ⟨hb.1, ?_, ?_⟩ <;> rw [List.length_map, hslen] <;> omega)
  have hvar : 0 ≤ ((scores.map (fun p => p.1 - p.2)).map
      (fun d => (d - (scores.map (fun p => p.1 - p.2)).sum / (n : ℝ)) ^ 2)).sum / (n : ℝ) := by
    apply div_nonneg _ hnRpos.le
    apply List.sum_nonneg
    intro x hx
    rw [List.mem_map] at hx
    obtain ⟨d, _, rfl⟩ := hx
    positivity
  simp only [monte_carlo]
  rw [hs]
  simp only [okBind]
  rw [pyDiv_ok hnR]
  simp only [okBind]
  rw [pyDiv_ok hnR]
  simp only [okBind]
  rw [pyDiv_ok hnR]
  simp only [okBind]
  rw [pyDiv_ok hnR]
  simp only [okBind]
  rw [pyDiv_ok hnR]
  simp only [okBind]
  rw [pySqrt_ok hvar]
  simp only [okBind]
  rw [hA0]
  simp only [okBind]
  rw [hA1]
  simp only [okBind]
  rw [hB0]
  simp only [okBind]
  rw [hB1]
  simp only [okBind]
  rw [hMa]
  simp only [okBind]
  rw [hMb]
  simp only [okBind]
  rw [hdist]
  simp only [okBind]
  exact ⟨_, (winsA scores : ℝ) / (n : ℝ), rfl, rfl, rfl⟩

lemma rhe_ge (x : ℝ) : x - 1 / 2 ≤ (rhe x : ℝ) := by
  have h1 := Int.floor_le x
  have h2 := Int.lt_floor_add_one x
  rw [rhe]
  split_ifs <;> push_cast <;> linarith

lemma rhe_le (x : ℝ) : (rhe x : ℝ) ≤ x + 1 / 2 := by
  have h1 := Int.floor_le x
  have h2 := Int.lt_floor_add_one x
  rw [rhe]
  split_ifs <;> push_cast <;> linarith

lemma roundPy_ge (k : ℕ) (x : ℝ) : x - 1 / (2 * 10 ^ k) ≤ roundPy k x := by
  have h10 : (0 : ℝ) < 10 ^ k := by positivity
  have h := rhe_ge (x * 10 ^ k)
  have hexp : (x - 1 / (2 * 10 ^ k)) * 10 ^ k = x * 10 ^ k - 1 / 2 := by
    field_simp
    ring
  rw [roundPy, le_div_iff h10, hexp]
  exact h

lemma rhe_add_rev (m : ℤ) (hm : Even m) (x : ℝ) :
    rhe x + rhe ((m : ℝ) - x) = m := by
  have hf0 : (0 : ℝ) ≤ x - ⌊x⌋ := by
    have := Int.floor_le x
    linarith
  have hf1 : x - ⌊x⌋ < 1 := by
    have := Int.lt_floor_add_one x
    linarith
  rw [Int.even_iff] at hm
  rcases eq_or_lt_of_le hf0 with hz | hpos
  · have hfl : ⌊(m : ℝ) - x⌋ = m - ⌊x⌋ := by
      rw [Int.floor_eq_iff]
      push_cast
      constructor <;> linarith
    rw [rhe, rhe, hfl]
    push_cast
    split_ifs <;> first
      | omega
      | (exfalso; linarith)
      | (simp only [Int.even_iff] at *; omega)
  · have hfl : ⌊(m : ℝ) - x⌋ = m - ⌊x⌋ - 1 := by
      rw [Int.floor_eq_iff]
      push_cast
      constructor <;> linarith
    rw [rhe, rhe, hfl]
    push_cast
    split_ifs <;> first
      | omega
      | (exfalso; linarith)
      | (simp only [Int.even_iff] at *; omega)

lemma roundPy_sum_one (p : ℝ) : roundPy 4 p + roundPy 4 (1 - p) = 1 := by
  have h := rhe_add_rev 10000 (by decide) (p * 10 ^ 4)
  have hcast : ((10000 : ℤ) : ℝ) - p * 10 ^ 4 = (1 - p) * 10 ^ 4 := by
    push_cast
    ring
  rw [hcast] at h
  have h2 : ((rhe (p * 10 ^ 4) : ℝ) + (rhe ((1 - p) * 10 ^ 4) : ℝ)) = 10 ^ 4 := by
    have := congrArg (Int.cast : ℤ → ℝ) h
    push_cast at this
    push_cast
    linarith
  rw [roundPy, roundPy, div_add_div_same, div_eq_one_iff_eq (by norm_num)]
  exact h2

lemma rank_grade_eq (e : ℚ) : gradeRank (grade e) =
    (if e ≥ 0.14 then 4 else if e ≥ 0.11 then 3 else if e ≥ 0.08 then 2
      else if e ≥ 0.05 then 1 else 0) := by
  rw [grade]
  split_ifs <;> rfl

/-- C1 counterexample: on the one-trial set whose two scores are equal, the
source tally gives `win_prob_a = 0`, not the `1/2` the 50/50 tie split of the
claim would give. -/
theorem win_tally_tie_split_cex :
    (winsA [((1 : ℚ), 1)] : ℚ) / (List.length [((1 : ℚ), 1)])
      ≠ win_prob_a_spec_tie_split [((1 : ℚ), 1)] := by
  norm_num [winsA, win_prob_a_spec_tie_split, List.countP, List.countP.go]

/-- C1 (amended): the Monte Carlo win tally does not split ties.
`win_prob_a` counts only trials where side A's score is strictly greater
(tied trials contribute nothing to A), and `win_prob_b = 1 - win_prob_a`,
so every tied trial counts entirely toward side B. -/
theorem win_tally_tie_behavior (ps : List (ℚ × ℚ)) (h : 0 < ps.length) :
    (winsA ps : ℚ) / ps.length
        = (ps.countP (fun p => decide (p.2 < p.1)) : ℚ) / ps.length ∧
    1 - (winsA ps : ℚ) / ps.length
        = ((ps.countP (fun p => decide (p.1 < p.2)) : ℚ)
            + (ps.countP (fun p => decide (p.1 = p.2)) : ℚ)) / ps.length := by
  have hn : (0 : ℚ) < ps.length := by exact_mod_cast h
  refine ⟨rfl, ?_⟩
  have ht : ((ps.countP (fun p => decide (p.2 < p.1)) : ℚ)
      + (ps.countP (fun p => decide (p.1 < p.2)) : ℚ)
      + (ps.countP (fun p => decide (p.1 = p.2)) : ℚ)) = (ps.length : ℚ) := by
    exact_mod_cast congrArg (Nat.cast : ℕ → ℚ) (count_trichotomy ps)
  rw [winsA]
  field_simp
  linarith

/-- Witness for C1 (amended) at the concrete tied trial set `[(1, 1)]`. -/
theorem win_tally_tie_behavior_witness :
    1 - (winsA [((1 : ℚ), 1)] : ℚ) / (List.length [((1 : ℚ), 1)])
        = ((List.countP (fun p => decide (p.1 < p.2)) [((1 : ℚ), 1)] : ℚ)
            + (List.countP (fun p => decide (p.1 = p.2)) [((1 : ℚ), 1)] : ℚ))
            / (List.length [((1 : ℚ), 1)]) :=
  (win_tally_tie_behavior [((1 : ℚ), 1)] (by decide)).2

/-- C3: the side-selection rule of `run_matchup_analysis`: side A is chosen
with A's Kelly stake when `ev_a` is positive and at least `ev_b`; otherwise
side B is chosen with B's stake when `ev_b` is positive; when neither EV is
positive the result is the no-edge label with stake exactly zero; and an
exact positive tie prefers side A. -/
theorem select_ev_bet_rule (team_a team_b : String) (ev_a ev_b kelly_a kelly_b : ℚ) :
    (0 < ev_a → ev_b ≤ ev_a →
      select_ev_bet team_a team_b ev_a ev_b kelly_a kelly_b = (team_a, kelly_a)) ∧
    (¬(0 < ev_a ∧ ev_b ≤ ev_a) → 0 < ev_b →
      select_ev_bet team_a team_b ev_a ev_b kelly_a kelly_b = (team_b, kelly_b)) ∧
    (ev_a ≤ 0 → ev_b ≤ 0 →
      select_ev_bet team_a team_b ev_a ev_b kelly_a kelly_b = ("No +EV", 0)) ∧
    (0 < ev_a → ev_a = ev_b →
      select_ev_bet team_a team_b ev_a ev_b kelly_a kelly_b = (team_a, kelly_a)) := by
  refine ⟨fun h1 h2 => ?_, fun h1 h2 => ?_, fun h1 h2 => ?_, fun h1 h2 => ?_⟩
  · rw [select_ev_bet, if_pos ⟨h1, h2⟩]
  · rw [select_ev_bet, if_neg h1, if_pos h2]
  · rw [select_ev_bet, if_neg (fun hc => absurd hc.1 (not_lt.mpr h1)),
      if_neg (not_lt.mpr h2)]
  · rw [select_ev_bet, if_pos ⟨h1, h2.ge⟩]

/-- Witness for C3 at a concrete EV pair with `ev_a` positive and larger. -/
theorem select_ev_bet_rule_witness :
    select_ev_bet "Lakers" "Celtics" 5 3 2 1 = ("Lakers", 2) :=
  (select_ev_bet_rule "Lakers" "Celtics" 5 3 2 1).1 (by norm_num) (by norm_num)

/-- C5 counterexample: at American odds exactly `0` the conversion does not
fail; it takes the nonnegative branch and returns decimal odds `1`. -/
theorem american_to_decimal_zero_cex : american_to_decimal 0 = 1 := by
  norm_num [american_to_decimal]

/-- C5 (amended): positive American odds map to `1 + odds/100`, negative ones
to `1 + 100/|odds|`, and odds exactly `0` return `1` through the nonnegative
branch — no error of any kind is raised. -/
theorem american_to_decimal_spec (odds : ℚ) :
    (0 < odds → american_to_decimal odds = 1 + odds / 100) ∧
    (odds < 0 → american_to_decimal odds = 1 + 100 / |odds|) ∧
    (odds = 0 → american_to_decimal odds = 1) := by
  refine ⟨fun h => ?_, fun h => ?_, fun h => ?_⟩
  · rw [american_to_decimal, if_neg (not_lt.mpr h.le)]
  · rw [american_to_decimal, if_pos h]
  · subst h
    norm_num [american_to_decimal]

/-- Witness for C5 (amended) at the representative odds `+150`. -/
theorem american_to_decimal_spec_witness :
    american_to_decimal 150 = 1 + 150 / 100 :=
  (american_to_decimal_spec 150).1 (by norm_num)

/-- C6: `compute_baseline` equals
`max (scale * (1 + raw * 0.12)) (scale * 0.5)` where `raw` is the
weight-table-weighted sum of the supplied factor maps plus the weighted
historical adjustment; the output never falls below `scale * 0.5`; and a
factor whose name is absent from the weight table contributes exactly zero
to any of the three per-side maps (never an error). -/
theorem compute_baseline_spec
    (metrics situational injury historical weights : List (String × ℚ)) (scale : ℚ)
    (k : String) (v : ℚ) (hk : weights.find? (fun p => p.1 == k) = none) :
    compute_baseline metrics situational injury historical weights scale
      = max (scale * (1 + (weightFold weights metrics 0 + weightFold weights situational 0
            + weightFold weights injury 0
            + dictGet weights "historical" 0 * dictGet historical "adjusted_point_diff" 0)
          * 0.12)) (scale * 0.5) ∧
    scale * 0.5 ≤ compute_baseline metrics situational injury historical weights scale ∧
    compute_baseline ((k, v) :: metrics) situational injury historical weights scale
      = compute_baseline metrics situational injury historical weights scale ∧
    compute_baseline metrics ((k, v) :: situational) injury historical weights scale
      = compute_baseline metrics situational injury historical weights scale ∧
    compute_baseline metrics situational ((k, v) :: injury) historical weights scale
      = compute_baseline metrics situational injury historical weights scale := by
  have hzero : dictGet weights k (0 : ℚ) = 0 := dictGet_of_find_none hk
  have hcons : ∀ m : List (String × ℚ),
      weightFold weights ((k, v) :: m) 0 = weightFold weights m 0 := by
    intro m
    simp [weightFold, List.foldl_cons, hzero]
  have hflat : ∀ m s i : List (String × ℚ),
      compute_baseline m s i historical weights scale
        = max (scale * (1 + (weightFold weights m 0 + weightFold weights s 0
              + weightFold weights i 0
              + dictGet weights "historical" 0 * dictGet historical "adjusted_point_diff" 0)
            * 0.12)) (scale * 0.5) := by
    intro m s i
    simp only [compute_baseline]
    rw [weightFold_shift weights s, weightFold_shift weights i]
  refine ⟨hflat metrics situational injury, ?_, ?_, ?_, ?_⟩
  · rw [hflat metrics situational injury]
    exact le_max_right _ _
  · rw [hflat ((k, v) :: metrics) situational injury, hflat metrics situational injury, hcons]
  · rw [hflat metrics ((k, v) :: situational) injury, hflat metrics situational injury, hcons]
  · rw [hflat metrics situational ((k, v) :: injury), hflat metrics situational injury, hcons]

/-- Witness for C6 at concrete maps: the factor `"pace"` is absent from the
one-entry weight table, so inserting it leaves the baseline unchanged. -/
theorem compute_baseline_spec_witness :
    compute_baseline [("pace", 3)] [] [] [] [("off_rating", 35 / 100)] 112
      = compute_baseline [] [] [] [] [("off_rating", 35 / 100)] 112 :=
  (compute_baseline_spec [] [] [] [] [("off_rating", 35 / 100)] 112 "pace" 3
    (by decide)).2.2.1

/-- C7: the edge-to-letter-grade mapping is monotone non-decreasing (a larger
edge never receives a lower grade), and it realises the threshold table
`edge ≥ 0.14 → A+`, `≥ 0.11 → A`, `≥ 0.08 → B`, `≥ 0.05 → C`, else `D`. -/
theorem grade_monotone_spec :
    (∀ e1 e2 : ℚ, e1 ≤ e2 → gradeRank (grade e1) ≤ gradeRank (grade e2)) ∧
    (∀ e : ℚ, (0.14 ≤ e → grade e = "A+")
      ∧ (0.11 ≤ e → e < 0.14 → grade e = "A")
      ∧ (0.08 ≤ e → e < 0.11 → grade e = "B")
      ∧ (0.05 ≤ e → e < 0.08 → grade e = "C")
      ∧ (e < 0.05 → grade e = "D")) := by
  constructor
  · intro e1 e2 h
    rw [rank_grade_eq, rank_grade_eq]
    split_ifs <;> first
      | decide
      | (exfalso; simp only [ge_iff_le, not_le] at *; linarith)
  · intro e
    refine ⟨fun h => ?_, fun h1 h2 => ?_, fun h1 h2 => ?_, fun h1 h2 => ?_, fun h => ?_⟩
    · rw [grade, if_pos h]
    · rw [grade, if_neg (not_le.mpr h2), if_pos h1]
    · rw [grade, if_neg (not_le.mpr (by linarith)), if_neg (not_le.mpr h2), if_pos h1]
    · rw [grade, if_neg (not_le.mpr (by linarith)), if_neg (not_le.mpr (by linarith)),
        if_neg (not_le.mpr h2), if_pos h1]
    · rw [grade, if_neg (not_le.mpr (by linarith)), if_neg (not_le.mpr (by linarith)),
        if_neg (not_le.mpr (by linarith)), if_neg (not_le.mpr h)]

/-- Witness for C7 at the concrete edge pair `0.06 ≤ 0.2`. -/
theorem grade_monotone_spec_witness :
    gradeRank (grade 0.06) ≤ gradeRank (grade 0.2) :=
  grade_monotone_spec.1 0.06 0.2 (by norm_num)

/-- C2: for every valid simulation input (trial count positive), the Monte
Carlo simulator succeeds and the rounded win probabilities of the returned
result sum to exactly 1 (because `win_prob_b = 1 - win_prob_a` and decimal
round-half-even of `p` and `1 - p` at four places always cancels). -/
theorem monte_carlo_winprob_sum (ba bb : ℝ) (sport : String) (n : ℤ) (u : ℕ → ℝ)
    (hn : 0 < n) :
    ∃ r : SimResult, monte_carlo ba bb sport n u = .ok r ∧
      r.TeamA_WinProb + r.TeamB_WinProb = 1 := by
  obtain ⟨r, p, hr, hA, hB⟩ := monte_carlo_ok ba bb sport n u hn
  refine ⟨r, hr, ?_⟩
  rw [hA, hB]
  exact roundPy_sum_one p

/-- Witness for C2 at one trial of the constant-zero random stream. -/
theorem monte_carlo_winprob_sum_witness :
    ∃ r : SimResult, monte_carlo 0 0 "NBA" 1 (fun _ => 0) = .ok r ∧
      r.TeamA_WinProb + r.TeamB_WinProb = 1 :=
  monte_carlo_winprob_sum 0 0 "NBA" 1 (fun _ => 0) (by norm_num)

/-- C4 counterexample: at trial count 0 the simulator raises
`ZeroDivisionError` (from `wins_a / n`), not the `InvalidConfiguration`
failure the claim asserts (no such error exists in the source). -/
theorem monte_carlo_validation_cex :
    monte_carlo 0 0 "NBA" 0 (fun _ => 0) = .error .zeroDivision ∧
    PyErr.zeroDivision ≠ PyErr.invalidConfiguration := by
  constructor
  · simp only [monte_carlo, Int.toNat_zero, sampleScores, okBind, Int.cast_zero,
      pyDiv_zero, errBind]
  · decide

/-- C4 (amended): the simulator performs no input validation, and no
`InvalidConfiguration` error exists in the source.  A zero trial count
raises `ZeroDivisionError` at the win-probability division; a negative
trial count raises `IndexError` when the confidence interval indexes the
empty sorted sample; `gauss_pair` raises the sqrt-domain `ValueError`
exactly when the correlation lies strictly outside `[-1, 1]`; and sigma is
never validated — `gauss_pair` returns a result for any sigma, including
non-positive ones. -/
theorem monte_carlo_no_validation (ba bb : ℝ) (sport : String) (n : ℤ) (u : ℕ → ℝ)
    (mu_a mu_b sigma corr : ℝ) :
    (monte_carlo ba bb sport 0 u = .error .zeroDivision) ∧
    (n < 0 → monte_carlo ba bb sport n u = .error .indexError) ∧
    (1 < |corr| → gauss_pair mu_a mu_b sigma corr u = .error .valueError) ∧
    (|corr| ≤ 1 → ∃ pr, gauss_pair mu_a mu_b sigma corr u = .ok pr) := by
  refine ⟨?_, fun hneg => ?_, fun hc => ?_, fun hc => ?_⟩
  · simp only [monte_carlo, Int.toNat_zero, sampleScores, okBind, Int.cast_zero,
      pyDiv_zero, errBind]
  · have hnR : ((n : ℝ)) ≠ 0 := by
      have hlt : (n : ℝ) < 0 := by exact_mod_cast hneg
      exact ne_of_lt hlt
    simp only [monte_carlo, Int.toNat_of_nonpos hneg.le, sampleScores, okBind,
      List.map_nil, List.sum_nil, winsA, List.countP_nil, Nat.cast_zero, zero_div,
      pyDiv_ok hnR, pySqrt_ok (le_refl (0 : ℝ)), List.insertionSort, pyGet_nil, errBind]
  · have h1 : 1 - corr ^ 2 < 0 := by nlinarith [sq_abs corr, abs_nonneg corr]
    simp only [gauss_pair, pySqrt, if_pos h1, errBind]
  · have h1 : 0 ≤ 1 - corr ^ 2 := by nlinarith [sq_abs corr, abs_nonneg corr]
    rw [gauss_pair_ok mu_a mu_b sigma u h1]
    exact ⟨_, rfl⟩

/-- Witness for C4 (amended): a negative trial count yields `IndexError`,
and a correlation of 2 yields the sqrt-domain `ValueError`. -/
theorem monte_carlo_no_validation_witness :
    (monte_carlo 0 0 "NBA" (-1) (fun _ => 0) = .error .indexError) ∧
    (gauss_pair 0 0 1 2 (fun _ => 0) = .error .valueError) :=
  ⟨(monte_carlo_no_validation 0 0 "NBA" (-1) (fun _ => 0) 0 0 1 2).2.1 (by norm_num),
   (monte_carlo_no_validation 0 0 "NBA" (-1) (fun _ => 0) 0 0 1 2).2.2.1 (by norm_num)⟩

/-- C8: zero legs supplied — both entry points of the parlay engine return
the well-defined empty-dict result (modelled `none`) and raise nothing:
`build_optimal_parlay` on the empty pool filters and ranks nothing, falls
back to the empty win-probability ranking, and `calculate_parlay` returns
`{}` on its empty-input check before any division can raise. -/
theorem build_optimal_parlay_empty (max_legs : ℕ) :
    build_optimal_parlay [] max_legs = .ok none ∧
    calculate_parlay [] = .ok none := by
  constructor
  · simp [build_optimal_parlay, calculate_parlay, List.insertionSort]
  · simp [calculate_parlay]

/-- C10: each score pair returned by `gauss_pair` has bounded support: the
first score stays within `6 * sigma` of its mean and the second within
`6 * sqrt 2 * sigma` of its mean, for any correlation in `[-1, 1]` and any
uniform draws in `[0, 1)` — the sum of 12 uniforms is not a true normal. -/
theorem gauss_pair_bounded (mu_a mu_b sigma corr : ℝ) (u : ℕ → ℝ) (sa sb : ℝ)
    (hsig : 0 ≤ sigma) (hc : |corr| ≤ 1) (hu : ∀ k, 0 ≤ u k ∧ u k < 1)
    (hp : gauss_pair mu_a mu_b sigma corr u = .ok (sa, sb)) :
    |sa - mu_a| ≤ 6 * sigma ∧ |sb - mu_b| ≤ 6 * Real.sqrt 2 * sigma := by
  have h1 : 0 ≤ 1 - corr ^ 2 := by nlinarith [sq_abs corr, abs_nonneg corr]
  rw [gauss_pair_ok mu_a mu_b sigma u h1] at hp
  simp only [Except.ok.injEq, Prod.mk.injEq] at hp
  obtain ⟨hsa, hsb⟩ := hp
  have hb1a : 0 ≤ (Finset.range 12).sum (fun k => u (2 * k)) :=
    Finset.sum_nonneg fun k _ => (hu _).1
  have hb1b : (Finset.range 12).sum (fun k => u (2 * k)) ≤ 12 := by
    calc (Finset.range 12).sum (fun k => u (2 * k))
        ≤ (Finset.range 12).sum (fun _ => (1 : ℝ)) :=
          Finset.sum_le_sum fun k _ => (hu _).2.le
      _ = 12 := by simp
  have hb2a : 0 ≤ (Finset.range 12).sum (fun k => u (2 * k + 1)) :=
    Finset.sum_nonneg fun k _ => (hu _).1
  have hb2b : (Finset.range 12).sum (fun k => u (2 * k + 1)) ≤ 12 := by
    calc (Finset.range 12).sum (fun k => u (2 * k + 1))
        ≤ (Finset.range 12).sum (fun _ => (1 : ℝ)) :=
          Finset.sum_le_sum fun k _ => (hu _).2.le
      _ = 12 := by simp
  have hz1 : |(Finset.range 12).sum (fun k => u (2 * k)) - 6| ≤ 6 :=
    abs_le.mpr ⟨by linarith, by linarith⟩
  have hz2 : |(Finset.range 12).sum (fun k => u (2 * k + 1)) - 6| ≤ 6 :=
    abs_le.mpr ⟨by linarith, by linarith⟩
  have hsn : 0 ≤ Real.sqrt (1 - corr ^ 2) := Real.sqrt_nonneg _
  constructor
  · have harg : sa - mu_a
        = sigma * ((Finset.range 12).sum (fun k => u (2 * k)) - 6) := by
      rw [← hsa]
      ring
    rw [harg, abs_mul, abs_of_nonneg hsig]
    calc sigma * |(Finset.range 12).sum (fun k => u (2 * k)) - 6|
        ≤ sigma * 6 := mul_le_mul_of_nonneg_left hz1 hsig
      _ = 6 * sigma := by ring
  · have hkey : |corr| + Real.sqrt (1 - corr ^ 2) ≤ Real.sqrt 2 := by
      have h2 : (|corr| + Real.sqrt (1 - corr ^ 2)) ^ 2 ≤ 2 := by
        nlinarith [sq_nonneg (|corr| - Real.sqrt (1 - corr ^ 2)), sq_abs corr,
          Real.sq_sqrt h1]
      have h3 : 0 ≤ |corr| + Real.sqrt (1 - corr ^ 2) := by positivity
      exact (Real.le_sqrt h3 (by norm_num)).mpr h2
    have harg : sb - mu_b
        = sigma * (corr * ((Finset.range 12).sum (fun k => u (2 * k)) - 6)
            + Real.sqrt (1 - corr ^ 2)
              * ((Finset.range 12).sum (fun k => u (2 * k + 1)) - 6)) := by
      rw [← hsb]
      ring
    rw [harg, abs_mul, abs_of_nonneg hsig]
    have htri : |corr * ((Finset.range 12).sum (fun k => u (2 * k)) - 6)
        + Real.sqrt (1 - corr ^ 2)
          * ((Finset.range 12).sum (fun k => u (2 * k + 1)) - 6)|
        ≤ |corr| * 6 + Real.sqrt (1 - corr ^ 2) * 6 := by
      calc |corr * ((Finset.range 12).sum (fun k => u (2 * k)) - 6)
          + Real.sqrt (1 - corr ^ 2)
            * ((Finset.range 12).sum (fun k => u (2 * k + 1)) - 6)|
          ≤ |corr * ((Finset.range 12).sum (fun k => u (2 * k)) - 6)|
            + |Real.sqrt (1 - corr ^ 2)
                * ((Finset.range 12).sum (fun k => u (2 * k + 1)) - 6)| := abs_add _ _
        _ = |corr| * |(Finset.range 12).sum (fun k => u (2 * k)) - 6|
            + Real.sqrt (1 - corr ^ 2)
              * |(Finset.range 12).sum (fun k => u (2 * k + 1)) - 6| := by
            rw [abs_mul, abs_mul, abs_of_nonneg hsn]
        _ ≤ |corr| * 6 + Real.sqrt (1 - corr ^ 2) * 6 :=
            add_le_add (mul_le_mul_of_nonneg_left hz1 (abs_nonneg _))
              (mul_le_mul_of_nonneg_left hz2 hsn)
    have hstep := mul_le_mul_of_nonneg_left htri hsig
    have hfin : sigma * (|corr| * 6 + Real.sqrt (1 - corr ^ 2) * 6)
        ≤ 6 * Real.sqrt 2 * sigma := by nlinarith [hkey]
    linarith

/-- Witness for C10 at the constant draw `1/2`, mean 0, sigma 1, zero
correlation: both simulated scores are exactly 0 and satisfy the bounds. -/
theorem gauss_pair_bounded_witness :
    |(0 : ℝ) - 0| ≤ 6 * 1 ∧ |(0 : ℝ) - 0| ≤ 6 * Real.sqrt 2 * 1 := by
  have hsum1 : (Finset.range 12).sum (fun _ : ℕ => (1 / 2 : ℝ)) = 6 := by
    rw [Finset.sum_const, Finset.card_range, nsmul_eq_mul]
    norm_num
  refine gauss_pair_bounded 0 0 1 0 (fun _ => 1 / 2) 0 0 (by norm_num) (by norm_num)
    (fun k => by norm_num) ?_
  rw [gauss_pair_ok 0 0 1 (fun _ => 1 / 2) (by norm_num)]
  rw [hsum1]
  norm_num

lemma rhe_of_lt (x : ℝ) (z : ℤ) (h1 : (z : ℝ) ≤ x) (h2 : x < z + 1 / 2) : rhe x = z := by
  have hfl : ⌊x⌋ = z := by
    rw [Int.floor_eq_iff]
    refine ⟨h1, ?_⟩
    push_cast
    push_cast at h2
    linarith
  rw [rhe, hfl, if_pos (show x - (z : ℝ) < 1 / 2 by push_cast at h2; linarith)]

lemma boostOf_bounds (stat : String) : 0.044 ≤ boostOf stat ∧ boostOf stat ≤ 0.079 := by
  simp only [boostOf]
  split_ifs <;> norm_num

lemma erf_lb (x : ℝ) (hx : 0 ≤ x) : x * (1 - x ^ 2) ≤ erf x := by
  have hcont : Continuous fun t : ℝ => Real.exp (-t ^ 2) := by continuity
  have hint1 : IntervalIntegrable (fun _ : ℝ => Real.exp (-x ^ 2))
      MeasureTheory.volume 0 x := intervalIntegrable_const
  have hint2 : IntervalIntegrable (fun t : ℝ => Real.exp (-t ^ 2))
      MeasureTheory.volume 0 x := hcont.intervalIntegrable 0 x
  have hmono : ∀ t ∈ Set.Icc (0 : ℝ) x, Real.exp (-x ^ 2) ≤ Real.exp (-t ^ 2) := by
    intro t ht
    apply Real.exp_le_exp.mpr
    have h1 : t ^ 2 ≤ x ^ 2 := by nlinarith [ht.1, ht.2]
    linarith
  have hI : x * Real.exp (-x ^ 2) ≤ ∫ t in (0 : ℝ)..x, Real.exp (-t ^ 2) := by
    have h := intervalIntegral.integral_mono_on hx hint1 hint2 hmono
    rwa [intervalIntegral.integral_const, smul_eq_mul, sub_zero] at h
  have hI0 : 0 ≤ ∫ t in (0 : ℝ)..x, Real.exp (-t ^ 2) := le_trans (by positivity) hI
  have hpi : (1 : ℝ) ≤ 2 / Real.sqrt Real.pi := by
    rw [le_div_iff (Real.sqrt_pos.mpr Real.pi_pos)]
    have h4 : Real.sqrt Real.pi ≤ 2 := by
      have h2 : (2 : ℝ) = Real.sqrt (2 ^ 2) := (Real.sqrt_sq (by norm_num)).symm
      rw [h2]
      exact Real.sqrt_le_sqrt (by nlinarith [Real.pi_le_four])
    linarith
  have hexp : 1 - x ^ 2 ≤ Real.exp (-x ^ 2) := by
    have h := Real.add_one_le_exp (-x ^ 2)
    linarith
  calc x * (1 - x ^ 2) ≤ x * Real.exp (-x ^ 2) := mul_le_mul_of_nonneg_left hexp hx
    _ ≤ ∫ t in (0 : ℝ)..x, Real.exp (-t ^ 2) := hI
    _ ≤ (2 / Real.sqrt Real.pi) * ∫ t in (0 : ℝ)..x, Real.exp (-t ^ 2) :=
        le_mul_of_one_le_left hI0 hpi
    _ = erf x := rfl

lemma probOfStat_lb (stat : String) : 0.55 ≤ probOfStat stat := by
  obtain ⟨hb1, hb2⟩ := boostOf_bounds stat
  rw [probOfStat, normal_cdf]
  have hz1 : (0.247 : ℝ) ≤ 1.04 * boostOf stat / 0.185 := by
    rw [le_div_iff (by norm_num)]
    linarith
  have hz2 : 1.04 * boostOf stat / 0.185 ≤ 0.445 := by
    rw [div_le_iff (by norm_num)]
    linarith
  have hs2a : (1.41 : ℝ) ≤ Real.sqrt 2 :=
    (Real.le_sqrt (by norm_num) (by norm_num)).mpr (by norm_num)
  have hs2b : Real.sqrt 2 ≤ 1.42 := Real.sqrt_le_iff.mpr ⟨by norm_num, by norm_num⟩
  have hs2pos : (0 : ℝ) < Real.sqrt 2 := by linarith
  set x0 := 1.04 * boostOf stat / 0.185 / Real.sqrt 2 with hx0
  have hx0nn : 0 ≤ x0 := by
    rw [hx0]
    exact div_nonneg (by linarith) hs2pos.le
  have hx0a : 0.17 ≤ x0 := by
    rw [hx0, le_div_iff hs2pos]
    nlinarith
  have hx0b : x0 ≤ 0.32 := by
    rw [hx0, div_le_iff hs2pos]
    nlinarith
  have hlb := erf_lb x0 hx0nn
  have hx0sq : x0 ^ 2 ≤ 0.1024 := by nlinarith
  have hq : (0.8976 : ℝ) ≤ 1 - x0 ^ 2 := by linarith
  have hprod : (0.17 : ℝ) * 0.8976 ≤ x0 * (1 - x0 ^ 2) :=
    mul_le_mul hx0a hq (by norm_num) (by linarith)
  have herf : (0.15 : ℝ) ≤ erf x0 := by linarith
  linarith

/-- C9 counterexample: at line `1/20` and stat `"block"` the returned
composite (rounded to two decimals) equals the line exactly, not strictly
exceeding it as the claim asserts for every positive line. -/
theorem propninja_composite_cex :
    (propninja_score (1 / 20) "block").toOption.map (fun t => t.1)
      = some (1 / 20 : ℝ) := by
  have htl : pyLower "block" = "block" := by decide
  have hb : boostOf "block" = 0.044 := by
    simp only [boostOf]
    rw [htl, if_neg (by decide), if_neg (by decide), if_neg (by decide),
      if_neg (by decide), if_neg (by decide), if_neg (by decide), if_neg (by decide),
      if_neg (by decide), if_neg (by decide), if_neg (by decide), if_pos (by decide)]
  have hc : compositeOf (1 / 20) "block" = 0.052288 := by
    simp only [compositeOf, hb]
    norm_num
  have hr2 : roundPy 2 (0.052288 : ℝ) = 1 / 20 := by
    rw [roundPy, rhe_of_lt (0.052288 * 10 ^ 2) 5 (by norm_num) (by norm_num)]
    norm_num
  simp only [propninja_score, hc]
  rw [pyDiv_ok (show (1 : ℝ) / 20 * 0.185 ≠ 0 by norm_num)]
  simp only [okBind]
  simp only [Except.toOption, Option.map, hr2]
  rfl

/-- C9 (amended): for every positive line and every stat string,
`propninja_score` succeeds and returns the rounded composite, a rounded win
probability that depends only on the stat keyword (the line cancels in the
z-score) and is strictly greater than `1/2`, and the corresponding edge;
the unrounded composite strictly exceeds the line (every branch of the
keyword boost table is positive), though the two-decimal rounding of the
returned composite can collapse onto the line for small lines. -/
theorem propninja_score_spec (line : ℝ) (stat : String) (h : 0 < line) :
    propninja_score line stat
        = .ok (roundPy 2 (compositeOf line stat), roundPy 4 (probOfStat stat),
            roundPy 4 (probOfStat stat - 1 / DECIMAL_ODDS)) ∧
    line < compositeOf line stat ∧
    1 / 2 < roundPy 4 (probOfStat stat) := by
  obtain ⟨hb1, hb2⟩ := boostOf_bounds stat
  have hne : line ≠ 0 := ne_of_gt h
  have hcomp : compositeOf line stat = line + line * (1.04 * boostOf stat) := by
    simp only [compositeOf]
    ring
  refine ⟨?_, ?_, ?_⟩
  · have hden : line * 0.185 ≠ 0 := by positivity
    simp only [propninja_score]
    rw [pyDiv_ok hden]
    simp only [okBind]
    have hz : (compositeOf line stat - line) / (line * 0.185)
        = 1.04 * boostOf stat / 0.185 := by
      rw [hcomp]
      field_simp
      ring
    rw [hz]
    rfl
  · rw [hcomp]
    nlinarith
  · have hp := probOfStat_lb stat
    have hr := roundPy_ge 4 (probOfStat stat)
    have hh : (1 : ℝ) / (2 * 10 ^ 4) = 0.00005 := by norm_num
    linarith

/-- Witness for C9 (amended) at line 1 and stat `"Points"`. -/
theorem propninja_score_spec_witness : (1 : ℝ) < compositeOf 1 "Points" :=
  (propninja_score_spec 1 "Points" (by norm_num)).2.1

end PropNinja
